import Mathlib

/-!
Verification of the antenna S-parameter analysis program (`src/main.py`)
against its natural-language specification.

Shallow embedding conventions:
* Python floats are embedded as `ℚ` where the program only compares and
  subtracts them (frequency values, classification thresholds), and as `ℝ`
  where transcendental functions (`log10`, `arctan2`) are involved.
* Complex S-parameter samples are embedded as `ℂ`.
* A `skrf.Network` is embedded as the pair of parallel lists the script
  actually reads: `ntwk.f` (frequencies) and the per-frequency 2×2
  scattering matrix from which `ntwk.s11` is taken.
* Raised exceptions are embedded as `Except` errors; printed error messages
  (the script's only record of a failure) are embedded as an explicit
  returned log list.
* File paths (Python `str`) are embedded as `List Char`.
-/

/-- A 2×2 complex scattering matrix at one frequency sample; entry `m i j`
is the parameter S(i+1)(j+1), so `m 0 0` is S11. -/
def SMat : Type := Fin 2 → Fin 2 → ℂ

instance : Inhabited SMat := ⟨fun _ _ => 0⟩

/-- Embedding of the network data the script reads from a `skrf.Network`:
the frequency list `ntwk.f` (Hz) and the parallel list of per-frequency
scattering matrices (`ntwk.s`). -/
structure Network where
  frequencies : List ℚ
  s : List SMat

instance : Inhabited Network := ⟨⟨[], []⟩⟩

/-- A derived per-frequency trace sample (spec's `TracePoint`). -/
structure TracePoint where
  frequency_hz : ℚ
  magnitude_db : ℝ
  phase_deg : ℝ

instance : Inhabited TracePoint := ⟨⟨0, 0, 0⟩⟩

/-- Impedance-matching quality, from the three `print` branches of
`analyze_frequency_response`. -/
inductive MatchQuality
  | Good
  | Moderate
  | Poor
deriving DecidableEq, Repr

instance : Inhabited MatchQuality := ⟨.Good⟩

/-- Embedding of `main.py` lines 137-142: the threshold cascade
`if magnitude_db < -10: Good / elif magnitude_db < -6: Moderate /
else: Poor`.  Polymorphic over the ordered field so it can be applied
both to exact rationals and to the real value `20*log10|S11|`. -/
def classify_matching {α : Type} [LinearOrderedField α] (m : α) : MatchQuality :=
  if m < -10 then .Good
  else if m < -6 then .Moderate
  else .Poor

/-- Embedding of `20 * np.log10(np.abs(s11))` (lines 45 and 128). -/
noncomputable def magnitudeDb (z : ℂ) : ℝ :=
  20 * Real.logb 10 (Complex.abs z)

/-- Embedding of C's / numpy's `arctan2 y x` over the reals (no signed
zeros in the real embedding). -/
noncomputable def atan2 (y x : ℝ) : ℝ :=
  if 0 < x then Real.arctan (y / x)
  else if x < 0 then
    (if 0 ≤ y then Real.arctan (y / x) + Real.pi
     else Real.arctan (y / x) - Real.pi)
  else
    (if 0 < y then Real.pi / 2
     else if y < 0 then -(Real.pi / 2)
     else 0)

/-- Embedding of `np.angle(s11, deg=True)` (lines 58 and 129):
`arctan2(Im, Re)` converted from radians to degrees. -/
noncomputable def phaseDeg (z : ℂ) : ℝ :=
  atan2 z.im z.re * (180 / Real.pi)

/-- Index of the first occurrence of the minimum of `|f - t|` over the
list, embedding `np.abs(ntwk.f - target_freq).argmin()` (line 123):
on a tie the lower index wins. -/
def argminIdx (t : ℚ) : List ℚ → ℕ
  | [] => 0
  | x :: xs =>
    if xs.isEmpty then 0
    else if |x - t| ≤ |xs.getD (argminIdx t xs) 0 - t| then 0
    else argminIdx t xs + 1

/-- Errors of the analyzer: `emptyNetwork` embeds the hard failure of
`argmin` on an empty array (the spec's `EmptyNetworkError`), `indexError`
the out-of-range list indexing at line 125. -/
inductive AnalyzerError
  | emptyNetwork
  | indexError
deriving DecidableEq, Repr

/-- Embedding of lines 122-129 of `analyze_frequency_response` for one
network: locate the sample nearest `t`, extract S11 there, and build the
derived trace point (the spec's `nearest`).  An empty frequency list is a
hard failure, never a default value. -/
noncomputable def nearest (n : Network) (t : ℚ) : Except AnalyzerError TracePoint :=
  if n.frequencies.isEmpty then .error .emptyNetwork
  else
    match n.s.get? (argminIdx t n.frequencies) with
    | none => .error .indexError
    | some m =>
      .ok { frequency_hz := n.frequencies.getD (argminIdx t n.frequencies) 0
            magnitude_db := magnitudeDb (m 0 0)
            phase_deg := phaseDeg (m 0 0) }

/-- Embedding of the per-network loop of `analyze_frequency_response`
(lines 121-142), the spec's `summarize`: for each network in order,
the nearest trace point and the classification of its magnitude. -/
noncomputable def analyze_frequency_response (networks : List Network) (t : ℚ) :
    Except AnalyzerError (List (TracePoint × MatchQuality)) :=
  networks.mapM fun n =>
    (nearest n t).map fun tp => (tp, classify_matching tp.magnitude_db)

/-- Embedding of the per-network trace series built at lines 43-58 of
`plot_s_parameters_multi` (the spec's `trace`), generalized from the
hard-coded S11 to a port pair `p q : Fin 2`: one `TracePoint` per
frequency sample, in frequency order. -/
noncomputable def trace (n : Network) (p q : Fin 2) : List TracePoint :=
  (n.frequencies.zip n.s).map fun fm =>
    { frequency_hz := fm.1
      magnitude_db := magnitudeDb (fm.2 p q)
      phase_deg := phaseDeg (fm.2 p q) }

/-- Parse failure of one Touchstone file (the spec's `FormatError`). -/
inductive FormatError
  | malformedDataLine : ℕ → FormatError
deriving DecidableEq, Repr

/-- One line of a Touchstone file as the parser sees it: a skipped line
(`!` comment or blank), a well-formed data line already converted to a
frequency and a 2×2 complex matrix, or a malformed line. -/
inductive RawLine
  | skip
  | data : ℚ → SMat → RawLine
  | malformed

/-- Modelled from the spec: the Touchstone data-line scan.  The parser
itself lives in the external `skrf` library, not under `src/`; the spec
(§4.1) requires that a malformed data line makes the whole file fail with
`MalformedDataLine(line_number)` rather than being silently dropped.
Collects the (frequency, matrix) rows in file order, aborting at the
first malformed line; `k` is the current 1-based line number. -/
def parseLines (k : ℕ) : List RawLine → Except FormatError (List (ℚ × SMat))
  | [] => .ok []
  | .skip :: rest => parseLines (k + 1) rest
  | .malformed :: _ => .error (.malformedDataLine k)
  | .data f m :: rest => (parseLines (k + 1) rest).map fun rows => (f, m) :: rows

/-- Modelled from the spec: parsing one file either yields a complete
`Network` or a `FormatError` — never a partial value. -/
def parseFile (lines : List RawLine) : Except FormatError Network :=
  (parseLines 1 lines).map fun rows => ⟨rows.map Prod.fst, rows.map Prod.snd⟩

/-- Embedding of the per-file loop of `load_antenna_files` (lines 19-28):
each file comes with its parse outcome; a success is appended to the
network list, a failure is recorded in the printed-error log (the `print`
in the `except` branch) and the loop continues with the next file. -/
def loadBatch : List (List Char × Except FormatError Network) →
    List Network × List (List Char × FormatError)
  | [] => ([], [])
  | (_, .ok n) :: rest =>
    let r := loadBatch rest
    (n :: r.1, r.2)
  | (p, .error e) :: rest =>
    let r := loadBatch rest
    (r.1, (p, e) :: r.2)

/-- The exception raised by Python's `int('')` during the sort-key
computation at line 16. -/
inductive ValueError
  | intOfEmptyStr
deriving DecidableEq, Repr

/-- Embedding of `Path(x).stem`: the final path component with its last
extension removed (no dot in the name means nothing is removed). -/
def stem (path : List Char) : List Char :=
  let base := ((path.splitOn '/').getLastD [])
  match (base.reverse).dropWhile (fun c => c ≠ '.') with
  | [] => base
  | _ :: rest => rest.reverse

/-- Numeric value of a digit string, embedding Python's `int` on a
nonempty digit-only string. -/
def digitsVal (ds : List Char) : ℕ :=
  ds.foldl (fun a c => 10 * a + (c.toNat - Char.toNat '0')) 0

/-- Embedding of the sort key at line 16:
`int(''.join(filter(str.isdigit, Path(x).stem)))`.  When the stem holds
no digit the joined string is empty and `int('')` raises `ValueError`. -/
def sortKey (path : List Char) : Except ValueError ℕ :=
  match (stem path).filter Char.isDigit with
  | [] => .error .intOfEmptyStr
  | ds => .ok (digitsVal ds)

/-- Embedding of `load_antenna_files` (lines 7-28).  The directory glob is
external; its result enters as `paths`, and the per-file parse (the
`rf.Network(file)` call, external `skrf` code) enters as the oracle
`parseOf`.  The sort at line 16 evaluates the key on every path before
any file is loaded, so a single digit-free stem aborts the whole call
with `ValueError` — the per-file `try/except` does not cover it. -/
def load_antenna_files (paths : List (List Char))
    (parseOf : List Char → Except FormatError Network) :
    Except ValueError (List Network × List (List Char × FormatError)) :=
  match paths.mapM (fun p => (sortKey p).map fun k => (k, p)) with
  | .error e => .error e
  | .ok keyed =>
    .ok (loadBatch (((keyed.mergeSort fun a b => a.1 ≤ b.1).map Prod.snd).map
      fun p => (p, parseOf p)))

/-- Figure produced by `plot_s_parameters_multi` (lines 30-69), reduced to
the data it draws: one S11 trace per network. -/
structure SParamFig where
  traces : List (List TracePoint)

/-- Figure produced by `plot_smith_charts` (lines 71-89), reduced to the
data it draws: the S11 complex locus per network. -/
structure SmithFig where
  curves : List (List ℂ)

/-- Embedding of `plot_s_parameters_multi` as the data it renders. -/
noncomputable def plot_s_parameters_multi (networks : List Network) : SParamFig :=
  ⟨networks.map fun n => trace n 0 0⟩

/-- Embedding of `plot_smith_charts` as the data it renders. -/
def plot_smith_charts (networks : List Network) : SmithFig :=
  ⟨networks.map fun n => n.s.map fun m => m 0 0⟩

/-- Embedding of `visualize_all_antennas` (lines 91-112): load, and when
no network was loaded print a message and fall through to a bare `return`
(`none`); otherwise return the pair of figures. -/
noncomputable def visualize_all_antennas (paths : List (List Char))
    (parseOf : List Char → Except FormatError Network) :
    Except ValueError (Option (SParamFig × SmithFig)) :=
  (load_antenna_files paths parseOf).map fun res =>
    if res.1.isEmpty then none
    else some (plot_s_parameters_multi res.1, plot_smith_charts res.1)

/-- The exception raised by Python when `a, b = None` is executed
(line 149 of the `__main__` block). -/
inductive TypeError
  | cannotUnpackNone
deriving DecidableEq, Repr

/-- A concrete scattering matrix used in witnesses. -/
def sampleMat : SMat := fun _ _ => 1

/-- A concrete three-sample network used in witnesses. -/
def sampleNetwork : Network := ⟨[1, 2, 3], [sampleMat, sampleMat, sampleMat]⟩

/-- Embedding of the tuple unpacking
`s_param_fig, smith_fig = visualize_all_antennas(...)` at line 149. -/
def unpackTwo : Option (SParamFig × SmithFig) → Except TypeError (SParamFig × SmithFig)
  | none => .error .cannotUnpackNone
  | some figs => .ok figs

/-! ## Helper lemmas -/

lemma argminIdx_lt_length (t : ℚ) (fs : List ℚ) (h : fs ≠ []) :
    argminIdx t fs < fs.length := by
  induction fs with
  | nil => exact absurd rfl h
  | cons x xs ih =>
    simp only [argminIdx, List.length_cons]
    by_cases hxs : xs = []
    · simp [hxs]
    · simp only [List.isEmpty_eq_true, hxs, if_false]
      split
      · exact Nat.succ_pos _
      · exact Nat.succ_lt_succ (ih hxs)

lemma argminIdx_min (t : ℚ) (fs : List ℚ) :
    ∀ j < fs.length, |fs.getD (argminIdx t fs) 0 - t| ≤ |fs.getD j 0 - t| := by
  induction fs with
  | nil => intro j hj; simp at hj
  | cons x xs ih =>
    intro j hj
    simp only [argminIdx]
    by_cases hxs : xs = []
    · subst hxs
      have hj0 : j = 0 := by simpa using Nat.lt_one_iff.mp (by simpa using hj)
      simp [hj0]
    · simp only [List.isEmpty_eq_true, hxs, if_false]
      by_cases hle : |x - t| ≤ |xs.getD (argminIdx t xs) 0 - t|
      · simp only [hle, if_true]
        match j with
        | 0 => simp
        | k + 1 =>
          simp only [List.getD_cons_succ, List.getD_cons_zero]
          exact le_trans hle (ih k (by simpa using hj))
      · simp only [hle, if_false]
        match j with
        | 0 =>
          simp only [List.getD_cons_succ, List.getD_cons_zero]
          exact (not_le.mp hle).le
        | k + 1 =>
          simp only [List.getD_cons_succ]
          exact ih k (by simpa using hj)

lemma argminIdx_first (t : ℚ) (fs : List ℚ) :
    ∀ j < argminIdx t fs, |fs.getD (argminIdx t fs) 0 - t| < |fs.getD j 0 - t| := by
  induction fs with
  | nil => intro j hj; simp [argminIdx] at hj
  | cons x xs ih =>
    intro j hj
    simp only [argminIdx] at hj ⊢
    by_cases hxs : xs = []
    · simp [hxs] at hj
    · simp only [List.isEmpty_eq_true, hxs, if_false] at hj ⊢
      by_cases hle : |x - t| ≤ |xs.getD (argminIdx t xs) 0 - t|
      · rw [if_pos hle] at hj
        exact absurd hj (Nat.not_lt_zero j)
      · rw [if_neg hle] at hj ⊢
        match j with
        | 0 =>
          simp only [List.getD_cons_succ, List.getD_cons_zero]
          exact not_le.mp hle
        | k + 1 =>
          simp only [List.getD_cons_succ]
          exact ih k (Nat.lt_of_succ_lt_succ hj)

lemma nearest_eq_ok (n : Network) (t : ℚ) (hne : n.frequencies ≠ [])
    (hlen : n.frequencies.length ≤ n.s.length) :
    ∃ m, n.s.get? (argminIdx t n.frequencies) = some m ∧
      nearest n t = .ok ⟨n.frequencies.getD (argminIdx t n.frequencies) 0,
        magnitudeDb (m 0 0), phaseDeg (m 0 0)⟩ := by
  have hidx : argminIdx t n.frequencies < n.s.length :=
    lt_of_lt_of_le (argminIdx_lt_length t _ hne) hlen
  refine ⟨n.s.get ⟨_, hidx⟩, List.get?_eq_get hidx, ?_⟩
  unfold nearest
  rw [if_neg (by simp [hne]), List.get?_eq_get hidx]

/-! ## Claim theorems -/

/-- C1: `classify_matching` maps every magnitude to exactly one quality:
`m < -10` gives `Good`, `-10 ≤ m < -6` gives `Moderate`, `m ≥ -6` gives
`Poor`; in particular `-10` is `Moderate`, `-10.0001` is `Good`, `-6` is
`Poor` and `-6.0001` is `Moderate`. -/
theorem classify_matching_thresholds :
    (∀ m : ℝ, (classify_matching m = .Good ↔ m < -10) ∧
      (classify_matching m = .Moderate ↔ -10 ≤ m ∧ m < -6) ∧
      (classify_matching m = .Poor ↔ -6 ≤ m)) ∧
    classify_matching (-10 : ℝ) = .Moderate ∧
    classify_matching (-10.0001 : ℝ) = .Good ∧
    classify_matching (-6 : ℝ) = .Poor ∧
    classify_matching (-6.0001 : ℝ) = .Moderate := by
  have key : ∀ m : ℝ, (classify_matching m = .Good ↔ m < -10) ∧
      (classify_matching m = .Moderate ↔ -10 ≤ m ∧ m < -6) ∧
      (classify_matching m = .Poor ↔ -6 ≤ m) := by
    intro m
    unfold classify_matching
    by_cases h1 : m < -10
    · rw [if_pos h1]
      exact ⟨⟨fun _ => h1, fun _ => rfl⟩,
        ⟨fun hc => MatchQuality.noConfusion hc,
         fun hp => absurd h1 (not_lt.mpr hp.1)⟩,
        ⟨fun hc => MatchQuality.noConfusion hc,
         fun hp => absurd h1 (not_lt.mpr (by linarith))⟩⟩
    · rw [if_neg h1]
      by_cases h2 : m < -6
      · rw [if_pos h2]
        exact ⟨⟨fun hc => MatchQuality.noConfusion hc, fun hc => absurd hc h1⟩,
          ⟨fun _ => ⟨not_lt.mp h1, h2⟩, fun _ => rfl⟩,
          ⟨fun hc => MatchQuality.noConfusion hc,
           fun hp => absurd h2 (not_lt.mpr hp)⟩⟩
      · rw [if_neg h2]
        exact ⟨⟨fun hc => MatchQuality.noConfusion hc, fun hc => absurd hc h1⟩,
          ⟨fun hc => MatchQuality.noConfusion hc,
           fun hp => absurd hp.2 h2⟩,
          ⟨fun _ => not_lt.mp h2, fun _ => rfl⟩⟩
  refine ⟨key, ?_, ?_, ?_, ?_⟩
  · exact (key _).2.1.mpr (by norm_num)
  · exact (key _).1.mpr (by norm_num)
  · exact (key _).2.2.mpr (by norm_num)
  · exact (key _).2.1.mpr (by norm_num)

/-- C2: for a non-empty frequency list, the argmin scan embedded from
`np.abs(ntwk.f - target_freq).argmin()` returns an in-range index whose
distance to the target is minimal, and on ties the lowest index wins
(every strictly earlier index has strictly larger distance); `nearest`
returns the trace point at exactly that index, and on `[1, 2, 3]` with
target `1.5` the selected index is `0`. -/
theorem nearest_selects_argmin (fs : List ℚ) (t : ℚ) (h : fs ≠ []) :
    (argminIdx t fs < fs.length ∧
     (∀ j < fs.length, |fs.getD (argminIdx t fs) 0 - t| ≤ |fs.getD j 0 - t|) ∧
     (∀ j < argminIdx t fs, |fs.getD (argminIdx t fs) 0 - t| < |fs.getD j 0 - t|)) ∧
    (∀ n : Network, n.frequencies = fs → fs.length ≤ n.s.length →
      ∃ m, n.s.get? (argminIdx t fs) = some m ∧
        nearest n t = .ok ⟨fs.getD (argminIdx t fs) 0,
          magnitudeDb (m 0 0), phaseDeg (m 0 0)⟩) ∧
    argminIdx (3/2) [1, 2, 3] = 0 := by
  have a1 : |(1 : ℚ) - 3/2| = 1/2 := by rw [abs_of_nonpos] <;> norm_num
  have a2 : |(2 : ℚ) - 3/2| = 1/2 := by rw [abs_of_nonneg] <;> norm_num
  have a3 : |(3 : ℚ) - 3/2| = 3/2 := by rw [abs_of_nonneg] <;> norm_num
  have e1 : argminIdx (3/2) [(3 : ℚ)] = 0 := by simp [argminIdx]
  have e2 : argminIdx (3/2) [(2 : ℚ), 3] = 0 := by
    simp only [argminIdx, List.isEmpty_cons, e1, List.getD_cons_zero]
    rw [if_neg (by simp), if_pos (by norm_num [a2, a3, abs_of_nonneg])]
  have e3 : argminIdx (3/2) [(1 : ℚ), 2, 3] = 0 := by
    simp only [argminIdx, List.isEmpty_cons] at e2 ⊢
    rw [if_neg (by simp), e2, List.getD_cons_zero, if_pos (by rw [a1, a2])]
  refine ⟨⟨argminIdx_lt_length t fs h, argminIdx_min t fs, argminIdx_first t fs⟩,
    ?_, e3⟩
  intro n hn hlen
  subst hn
  exact nearest_eq_ok n t h hlen

theorem nearest_selects_argmin_witness :
    argminIdx (3/2) [(1 : ℚ), 2, 3] = 0 ∧
    ∃ m, sampleNetwork.s.get? (argminIdx (3/2) sampleNetwork.frequencies) = some m ∧
      nearest sampleNetwork (3/2) =
        .ok ⟨sampleNetwork.frequencies.getD (argminIdx (3/2) sampleNetwork.frequencies) 0,
          magnitudeDb (m 0 0), phaseDeg (m 0 0)⟩ :=
  ⟨(nearest_selects_argmin [1, 2, 3] (3/2) (List.cons_ne_nil 1 [2, 3])).2.2,
   (nearest_selects_argmin sampleNetwork.frequencies (3/2)
       (List.cons_ne_nil 1 [2, 3])).2.1
     sampleNetwork rfl (le_refl 3)⟩

/-- C3: `nearest` on a network with an empty frequency list fails hard
with the empty-network error and never returns an `ok` (default or
zero-valued) result. -/
theorem nearest_empty_fails (n : Network) (t : ℚ) (h : n.frequencies = []) :
    nearest n t = .error .emptyNetwork ∧ ∀ tp, nearest n t ≠ .ok tp := by
  have he : nearest n t = .error .emptyNetwork := by
    unfold nearest
    rw [if_pos (by simp [h])]
  exact ⟨he, fun tp hc => by rw [he] at hc; cases hc⟩

theorem nearest_empty_fails_witness :
    nearest ⟨[], []⟩ 0 = .error .emptyNetwork ∧
      ∀ tp, nearest ⟨[], []⟩ 0 ≠ .ok tp :=
  nearest_empty_fails ⟨[], []⟩ 0 rfl

lemma atan2_mem_Ioc (y x : ℝ) : -Real.pi < atan2 y x ∧ atan2 y x ≤ Real.pi := by
  have hpi := Real.pi_pos
  unfold atan2
  by_cases hx : 0 < x
  · rw [if_pos hx]
    have h1 := Real.neg_pi_div_two_lt_arctan (y / x)
    have h2 := Real.arctan_lt_pi_div_two (y / x)
    constructor <;> linarith
  · rw [if_neg hx]
    by_cases hx2 : x < 0
    · rw [if_pos hx2]
      by_cases hy : 0 ≤ y
      · rw [if_pos hy]
        have hd : y / x ≤ 0 := div_nonpos_iff.mpr (Or.inl ⟨hy, hx2.le⟩)
        have h1 : Real.arctan (y / x) ≤ 0 :=
          (Real.arctan_strictMono.monotone hd).trans_eq Real.arctan_zero
        have h2 := Real.neg_pi_div_two_lt_arctan (y / x)
        constructor <;> linarith
      · rw [if_neg hy]
        have hd : 0 < y / x := div_pos_iff.mpr (Or.inr ⟨not_le.mp hy, hx2⟩)
        have h1 : 0 < Real.arctan (y / x) := by
          rw [← Real.arctan_zero]
          exact Real.arctan_strictMono hd
        have h2 := Real.arctan_lt_pi_div_two (y / x)
        constructor <;> linarith
    · rw [if_neg hx2]
      by_cases hy : 0 < y
      · rw [if_pos hy]
        constructor <;> linarith
      · rw [if_neg hy]
        by_cases hy2 : y < 0
        · rw [if_pos hy2]
          constructor <;> linarith
        · rw [if_neg hy2]
          constructor <;> linarith

lemma phaseDeg_mem_Ioc (z : ℂ) : -180 < phaseDeg z ∧ phaseDeg z ≤ 180 := by
  obtain ⟨h1, h2⟩ := atan2_mem_Ioc z.im z.re
  have hpi := Real.pi_pos
  have hscale : (0 : ℝ) < 180 / Real.pi := by positivity
  have hcancel : Real.pi * (180 / Real.pi) = 180 := by
    field_simp
  unfold phaseDeg
  constructor
  · have h3 := mul_lt_mul_of_pos_right h1 hscale
    calc (-180 : ℝ) = -Real.pi * (180 / Real.pi) := by
          rw [neg_mul, hcancel]
      _ < atan2 z.im z.re * (180 / Real.pi) := h3
  · calc atan2 z.im z.re * (180 / Real.pi)
        ≤ Real.pi * (180 / Real.pi) := mul_le_mul_of_nonneg_right h2 hscale.le
      _ = 180 := hcancel

lemma getD_of_get?_eq_some {l : List SMat} {i : ℕ} {m : SMat}
    (h : l.get? i = some m) : l.getD i default = m := by
  rw [List.getD_eq_getD_get?, h]
  rfl

/-- C4: every derived trace point's `magnitude_db` field equals
`20·log10(|S|)` of the complex sample it was derived from — both along a
full `trace` and for the point returned by `nearest`. -/
theorem trace_magnitude_db_spec :
    (∀ (n : Network) (p q : Fin 2),
      (trace n p q).map TracePoint.magnitude_db =
        (n.frequencies.zip n.s).map fun fm =>
          20 * Real.logb 10 (Complex.abs (fm.2 p q))) ∧
    (∀ (n : Network) (t : ℚ),
      (nearest n t).map TracePoint.magnitude_db =
        (nearest n t).map fun _ =>
          20 * Real.logb 10 (Complex.abs
            ((n.s.getD (argminIdx t n.frequencies) default) 0 0))) := by
  constructor
  · intro n p q
    unfold trace
    rw [List.map_map]
    rfl
  · intro n t
    unfold nearest
    by_cases he : n.frequencies.isEmpty
    · rw [if_pos he]
      rfl
    · rw [if_neg he]
      cases hg : n.s.get? (argminIdx t n.frequencies) with
      | none => rfl
      | some m =>
        rw [getD_of_get?_eq_some hg]
        rfl

/-- C5: every derived trace point's `phase_deg` field equals
`arctan2(Im S, Re S)` converted to degrees, and the value always lies in
the half-open interval `(-180, 180]` — the endpoint `-180` is never
returned. -/
theorem trace_phase_deg_spec :
    (∀ (n : Network) (p q : Fin 2),
      (trace n p q).map TracePoint.phase_deg =
        (n.frequencies.zip n.s).map fun fm =>
          atan2 (fm.2 p q).im (fm.2 p q).re * (180 / Real.pi)) ∧
    (∀ (n : Network) (t : ℚ),
      (nearest n t).map TracePoint.phase_deg =
        (nearest n t).map fun _ =>
          atan2 ((n.s.getD (argminIdx t n.frequencies) default) 0 0).im
            ((n.s.getD (argminIdx t n.frequencies) default) 0 0).re *
            (180 / Real.pi)) ∧
    (∀ z : ℂ, phaseDeg z = atan2 z.im z.re * (180 / Real.pi) ∧
      -180 < phaseDeg z ∧ phaseDeg z ≤ 180) := by
  refine ⟨?_, ?_, fun z => ⟨rfl, phaseDeg_mem_Ioc z⟩⟩
  · intro n p q
    unfold trace
    rw [List.map_map]
    rfl
  · intro n t
    unfold nearest
    by_cases he : n.frequencies.isEmpty
    · rw [if_pos he]
      rfl
    · rw [if_neg he]
      cases hg : n.s.get? (argminIdx t n.frequencies) with
      | none => rfl
      | some m =>
        rw [getD_of_get?_eq_some hg]
        rfl

/-- C6: on a collection whose networks are all valid (non-empty, with the
frequency/s-matrix length invariant), the analysis loop succeeds, emits
exactly one record per network — same length as the collection — and the
record at position `i` is the nearest trace point of network `i` together
with the classification of its S11 magnitude, in collection order. -/
theorem analyze_one_record_per_network (nets : List Network) (t : ℚ)
    (h : ∀ n ∈ nets, n.frequencies ≠ [] ∧ n.frequencies.length ≤ n.s.length) :
    ∃ recs, analyze_frequency_response nets t = .ok recs ∧
      recs.length = nets.length ∧
      ∀ i < nets.length, ∃ tp,
        nearest (nets.getD i default) t = .ok tp ∧
        recs.getD i default = (tp, classify_matching tp.magnitude_db) := by
  induction nets with
  | nil => exact ⟨[], rfl, rfl, fun i hi => absurd hi (Nat.not_lt_zero i)⟩
  | cons n ns ih =>
    obtain ⟨hne, hlen⟩ := h n (List.mem_cons_self n ns)
    obtain ⟨m, _, hok⟩ := nearest_eq_ok n t hne hlen
    obtain ⟨recs, hrecs, hrlen, hidx⟩ :=
      ih fun x hx => h x (List.mem_cons_of_mem n hx)
    refine ⟨(⟨n.frequencies.getD (argminIdx t n.frequencies) 0,
        magnitudeDb (m 0 0), phaseDeg (m 0 0)⟩,
        classify_matching (magnitudeDb (m 0 0))) :: recs, ?_, ?_, ?_⟩
    · unfold analyze_frequency_response at hrecs ⊢
      rw [List.mapM_cons, hok, hrecs]
      rfl
    · simp [hrlen]
    · intro i hi
      match i with
      | 0 =>
        refine ⟨_, ?_, rfl⟩
        simpa using hok
      | k + 1 =>
        simpa using hidx k (by simpa using hi)

theorem analyze_one_record_per_network_witness :
    (∀ n ∈ [sampleNetwork], n.frequencies ≠ [] ∧
      n.frequencies.length ≤ n.s.length) ∧
    ∃ recs, analyze_frequency_response [sampleNetwork] 2 = .ok recs ∧
      recs.length = [sampleNetwork].length ∧
      ∀ i < [sampleNetwork].length, ∃ tp,
        nearest ([sampleNetwork].getD i default) 2 = .ok tp ∧
        recs.getD i default = (tp, classify_matching tp.magnitude_db) := by
  have hvalid : ∀ n ∈ [sampleNetwork], n.frequencies ≠ [] ∧
      n.frequencies.length ≤ n.s.length := by
    intro n hn
    rw [List.mem_singleton] at hn
    subst hn
    exact ⟨List.cons_ne_nil 1 [2, 3], le_refl 3⟩
  exact ⟨hvalid, analyze_one_record_per_network [sampleNetwork] 2 hvalid⟩

lemma parseLines_error_of_malformed (lines : List RawLine) :
    ∀ (k i : ℕ), i < lines.length → lines.getD i .skip = .malformed →
      ∃ j, parseLines k lines = .error (.malformedDataLine j) := by
  induction lines with
  | nil => intro k i hi; simp at hi
  | cons l rest ih =>
    intro k i hi hm
    cases l with
    | skip =>
      match i with
      | 0 => exact absurd hm (by simp)
      | j + 1 =>
        obtain ⟨j', hj'⟩ := ih (k + 1) j (by simpa using hi) (by simpa using hm)
        exact ⟨j', by simpa [parseLines] using hj'⟩
    | malformed => exact ⟨k, rfl⟩
    | data f m =>
      match i with
      | 0 => exact absurd hm (by simp)
      | j + 1 =>
        obtain ⟨j', hj'⟩ := ih (k + 1) j (by simpa using hi) (by simpa using hm)
        refine ⟨j', ?_⟩
        simp only [parseLines, hj']
        rfl

/-- C7: batch loading is per-file atomic.  The loaded list holds exactly
the successfully parsed networks in file order, every failed file is
recorded in the error log (the printed messages) instead of being
silently dropped, and a failure never aborts the rest of the batch;
meanwhile a single malformed line aborts the parse of its own file. -/
theorem load_per_file_atomic :
    (∀ files : List (List Char × Except FormatError Network),
      (loadBatch files).1 = files.filterMap (fun pr => pr.2.toOption) ∧
      (loadBatch files).2 = files.filterMap (fun pr =>
        match pr with
        | (p, .error e) => some (p, e)
        | (_, .ok _) => none)) ∧
    (∀ (lines : List RawLine) (i : ℕ), i < lines.length →
      lines.getD i .skip = .malformed →
      ∃ j, parseFile lines = .error (.malformedDataLine j)) := by
  constructor
  · intro files
    induction files with
    | nil => exact ⟨rfl, rfl⟩
    | cons pr rest ih =>
      obtain ⟨p, res⟩ := pr
      cases res with
      | ok n =>
        simp only [loadBatch, List.filterMap_cons, Except.toOption]
        exact ⟨by rw [ih.1]; try rfl, by rw [ih.2]; try rfl⟩
      | error e =>
        simp only [loadBatch, List.filterMap_cons, Except.toOption]
        exact ⟨by rw [ih.1]; try rfl, by rw [ih.2]; try rfl⟩
  · intro lines i hi hm
    obtain ⟨j, hj⟩ := parseLines_error_of_malformed lines 1 i hi hm
    refine ⟨j, ?_⟩
    unfold parseFile
    rw [hj]
    rfl

theorem load_per_file_atomic_witness :
    ((loadBatch [(['a'], .error (.malformedDataLine 3)),
                 (['b'], .ok sampleNetwork)]).1 =
       [(['a'], Except.error (FormatError.malformedDataLine 3)),
        (['b'], Except.ok sampleNetwork)].filterMap (fun pr => pr.2.toOption) ∧
     (loadBatch [(['a'], .error (.malformedDataLine 3)),
                 (['b'], .ok sampleNetwork)]).2 =
       [(['a'], Except.error (FormatError.malformedDataLine 3)),
        (['b'], Except.ok sampleNetwork)].filterMap (fun pr =>
          match pr with
          | (p, .error e) => some (p, e)
          | (_, .ok _) => none)) ∧
    ((0 : ℕ) < ([RawLine.malformed].length) ∧
      ∃ j, parseFile [RawLine.malformed] = .error (.malformedDataLine j)) :=
  ⟨load_per_file_atomic.1 _,
   ⟨Nat.zero_lt_one, load_per_file_atomic.2 [RawLine.malformed] 0 Nat.zero_lt_one rfl⟩⟩

/-- C8: under the data-model invariant (at least as many scattering
matrices as frequency samples), `trace` yields exactly one point per
frequency sample, the sequence of its `frequency_hz` fields is exactly
the frequency list in order, and re-running the traversal yields the
identical sequence (a pure projection — there is no state to mutate). -/
theorem trace_one_point_per_sample (n : Network) (p q : Fin 2)
    (h : n.frequencies.length ≤ n.s.length) :
    (trace n p q).length = n.frequencies.length ∧
    (trace n p q).map TracePoint.frequency_hz = n.frequencies ∧
    trace n p q = trace n p q := by
  refine ⟨?_, ?_, rfl⟩
  · unfold trace
    rw [List.length_map, List.length_zip]
    exact Nat.min_eq_left h
  · unfold trace
    rw [List.map_map]
    exact List.map_fst_zip n.frequencies n.s h

theorem trace_one_point_per_sample_witness :
    (trace sampleNetwork 0 0).length = sampleNetwork.frequencies.length ∧
    (trace sampleNetwork 0 0).map TracePoint.frequency_hz =
      sampleNetwork.frequencies ∧
    trace sampleNetwork 0 0 = trace sampleNetwork 0 0 :=
  trace_one_point_per_sample sampleNetwork 0 0 (le_refl 3)

lemma mapM_sortKey_error (paths : List (List Char)) (p : List Char)
    (hp : p ∈ paths) (he : (stem p).filter Char.isDigit = []) :
    paths.mapM (fun x => (sortKey x).map fun k => (k, x)) =
      .error ValueError.intOfEmptyStr := by
  induction paths with
  | nil => simp at hp
  | cons q rest ih =>
    rw [List.mapM_cons]
    rcases List.mem_cons.mp hp with hq | hrest
    · subst hq
      have hsk : sortKey p = .error .intOfEmptyStr := by
        unfold sortKey
        rw [he]
      rw [hsk]
      rfl
    · cases hsk : sortKey q with
      | error e =>
        cases e
        rfl
      | ok k =>
        rw [ih hrest]
        rfl

/-- C9: if any path in the glob result has a stem with no decimal digit,
the sort-key computation `int(''.join(filter(str.isdigit, stem)))` fails
with `ValueError` before any file is loaded: the whole call aborts and no
partial result is returned — the per-file `try/except` does not cover the
sort. -/
theorem load_aborts_on_digitfree_stem (paths : List (List Char))
    (parseOf : List Char → Except FormatError Network) (p : List Char)
    (hp : p ∈ paths) (hd : (stem p).filter Char.isDigit = []) :
    load_antenna_files paths parseOf = .error ValueError.intOfEmptyStr ∧
    ∀ res, load_antenna_files paths parseOf ≠ .ok res := by
  have h := mapM_sortKey_error paths p hp hd
  have he : load_antenna_files paths parseOf = .error ValueError.intOfEmptyStr := by
    unfold load_antenna_files
    rw [h]
  exact ⟨he, fun res hc => by rw [he] at hc; cases hc⟩

theorem load_aborts_on_digitfree_stem_witness :
    (['a', 'n', 't', 'e', 'n', 'n', 'a', 'X', '.', 's', '2', 'p'] ∈
      [['a', 'n', 't', 'e', 'n', 'n', 'a', 'X', '.', 's', '2', 'p']]) ∧
    (stem ['a', 'n', 't', 'e', 'n', 'n', 'a', 'X', '.', 's', '2', 'p']).filter
      Char.isDigit = [] ∧
    load_antenna_files [['a', 'n', 't', 'e', 'n', 'n', 'a', 'X', '.', 's', '2', 'p']]
        (fun _ => .ok sampleNetwork) = .error ValueError.intOfEmptyStr :=
  ⟨List.mem_cons_self _ _, rfl,
   (load_aborts_on_digitfree_stem
      [['a', 'n', 't', 'e', 'n', 'n', 'a', 'X', '.', 's', '2', 'p']]
      (fun _ => .ok sampleNetwork)
      ['a', 'n', 't', 'e', 'n', 'n', 'a', 'X', '.', 's', '2', 'p']
      (List.mem_cons_self _ _) rfl).1⟩

/-- C10: when loading succeeds but yields no networks,
`visualize_all_antennas` returns `none` instead of a pair of figures, and
the caller's two-value unpacking of that result is a `TypeError`. -/
theorem visualize_none_when_no_networks (paths : List (List Char))
    (parseOf : List Char → Except FormatError Network)
    (log : List (List Char × FormatError))
    (h : load_antenna_files paths parseOf = .ok ([], log)) :
    visualize_all_antennas paths parseOf = .ok none ∧
    unpackTwo none = .error .cannotUnpackNone ∧
    ∀ figs, visualize_all_antennas paths parseOf ≠ .ok (some figs) := by
  have hv : visualize_all_antennas paths parseOf = .ok none := by
    unfold visualize_all_antennas
    rw [h]
    rfl
  refine ⟨hv, rfl, fun figs hc => ?_⟩
  rw [hv] at hc
  exact Option.noConfusion (Except.ok.inj hc)

theorem visualize_none_when_no_networks_witness :
    visualize_all_antennas [] (fun _ => .ok sampleNetwork) = .ok none ∧
    unpackTwo none = .error .cannotUnpackNone ∧
    ∀ figs, visualize_all_antennas [] (fun _ => .ok sampleNetwork) ≠
      .ok (some figs) := by
  have h : load_antenna_files [] (fun _ => .ok sampleNetwork) = .ok ([], []) := by
    unfold load_antenna_files
    simp only [List.mapM_nil, pure, Except.pure]
    simp [loadBatch]
  exact visualize_none_when_no_networks [] _ [] h
